import Mathlib

/-!
# Verification of the asciidoc-linter rule engine

A shallow embedding of the Python sources of `asciidoc-linter`
(`asciidoc_linter/parser.py`, `linter.py`, `reporter.py`, and the rule
modules under `asciidoc_linter/rules/`), together with proofs about the
behaviour of the embedded functions.

Conventions:
* Python strings are Lean `String`s; the per-character helpers below mirror
  the exact Python `str` methods used by the source (`strip`, `lstrip`,
  `rstrip`, `splitlines`, `split`, `startswith`, membership).
* 0-based indices are used internally (Python `enumerate`), findings carry
  1-based positions, exactly as in the source.
* Rules receive the "document" value the engine hands them: a Python list
  whose entries are either raw strings or parser `Header` objects.  The
  inductive `DocLine` models that union.
-/

namespace AsciiDocLint

/-- Characters Python's no-argument `str.strip` / `str.split` treat as
whitespace (ASCII range, which is all the sources ever produce). -/
def pyIsSpace (c : Char) : Bool :=
  c = ' ' || c = '\t' || c = '\n' || c = '\r' || c = Char.ofNat 11 || c = Char.ofNat 12

def dropLeading (p : Char → Bool) (cs : List Char) : List Char := cs.dropWhile p

def dropTrailing (p : Char → Bool) (cs : List Char) : List Char :=
  (cs.reverse.dropWhile p).reverse

/-- Python `str.strip()` (no argument: strip whitespace on both sides). -/
def pyStrip (s : String) : String :=
  ⟨dropTrailing pyIsSpace (dropLeading pyIsSpace s.data)⟩

/-- Python `str.lstrip()`. -/
def pyLstrip (s : String) : String := ⟨dropLeading pyIsSpace s.data⟩

/-- Python `str.rstrip()`. -/
def pyRstrip (s : String) : String := ⟨dropTrailing pyIsSpace s.data⟩

/-- Python `str.strip(chars)`: strip any of the given characters from both
sides (used by the source as `strip("[]")`, `strip('"')` and
`lstrip("=")`). -/
def stripSet (set : List Char) (s : String) : String :=
  ⟨dropTrailing (set.contains ·) (dropLeading (set.contains ·) s.data)⟩

/-- `beginsWith pat cs` is true when `pat` is an initial segment of `cs`
(Python `str.startswith` on the character lists). -/
def beginsWith : List Char → List Char → Bool
  | [], _ => true
  | _ :: _, [] => false
  | p :: ps, c :: cs => p = c && beginsWith ps cs

/-- Python `s.startswith(pat)`. -/
def strBeginsWith (s pat : String) : Bool := beginsWith pat.data s.data

/-- Count of leading occurrences of `c` (the source computes heading levels
as `len(line) - len(line.lstrip("="))`). -/
def countLeading (c : Char) : List Char → Nat
  | [] => 0
  | x :: xs => if x = c then countLeading c xs + 1 else 0

def splitlinesAux : List Char → List Char → List String
  | [], acc => if acc.isEmpty then [] else [⟨acc.reverse⟩]
  | '\r' :: '\n' :: rest, acc => ⟨acc.reverse⟩ :: splitlinesAux rest []
  | '\r' :: rest, acc => ⟨acc.reverse⟩ :: splitlinesAux rest []
  | '\n' :: rest, acc => ⟨acc.reverse⟩ :: splitlinesAux rest []
  | c :: rest, acc => splitlinesAux rest (c :: acc)

/-- Python `str.splitlines()` for the line terminators that can occur in the
linted content (`\n`, `\r`, `\r\n`); a trailing terminator produces no empty
final line and the empty string yields `[]`. -/
def splitlines (s : String) : List String := splitlinesAux s.data []

def splitCharAux (sep : Char) : List Char → List Char → List (List Char)
  | [], acc => [acc.reverse]
  | c :: rest, acc =>
    if c = sep then acc.reverse :: splitCharAux sep rest []
    else splitCharAux sep rest (c :: acc)

/-- Python `str.split(sep)` for a one-character separator (keeps empty
segments; `"".split(sep) == [""]`). -/
def pySplitChar (sep : Char) (s : String) : List String :=
  (splitCharAux sep s.data []).map (⟨·⟩)

def splitWSAux : List Char → List Char → List String
  | [], acc => if acc.isEmpty then [] else [⟨acc.reverse⟩]
  | c :: rest, acc =>
    if pyIsSpace c then
      if acc.isEmpty then splitWSAux rest [] else ⟨acc.reverse⟩ :: splitWSAux rest []
    else splitWSAux rest (c :: acc)

/-- Python `str.split()` with no argument: split on whitespace runs and drop
empty segments. -/
def splitWS (s : String) : List String := splitWSAux s.data []

/-- Python `part.split(sep, 1)` restricted to the use in the source, where
the separator is known to occur: the part before the first separator and
everything after it. -/
def splitOnce (sep : Char) (cs : List Char) : List Char × List Char :=
  (cs.takeWhile (· ≠ sep), (cs.dropWhile (· ≠ sep)).drop 1)

/-! ## The finding data model (`rules/base.py`) -/

/-- `Severity` from `rules/base.py` (`ERROR`, `WARNING`, `INFO`). -/
inductive Severity
  | error
  | warning
  | info
  deriving DecidableEq, Repr

/-- `Position` from `rules/base.py`: 1-based line, optional column. -/
structure Position where
  line : Nat
  column : Option Nat := none
  deriving DecidableEq, Repr

/-- `Finding` from `rules/base.py`.  The dynamic `context` payload is always
a line string in the rules embedded here (the table rules store
`{"line": line}`; we keep the line).  `file` is the attribute
`lint_string` sets on each finding after the rules ran. -/
structure Finding where
  message : String
  severity : Severity
  position : Position
  rule_id : Option String := none
  context : Option String := none
  file : Option String := none
  deriving DecidableEq, Repr

/-- `LintReport` from `reporter.py`. -/
structure LintReport where
  findings : List Finding
  deriving DecidableEq, Repr

/-- `LintReport.exit_code`: Python `1 if self.findings else 0`. -/
def LintReport.exit_code (r : LintReport) : Nat :=
  if r.findings = [] then 0 else 1

/-! ## The parser (`parser.py`) -/

/-- An entry of the "document" list a rule receives: either a raw source
line (a Python `str`) or a parser `Header` element
(`AsciiDocElement` subclass with `line_number`, `content`, `level`).
`parse` only ever constructs `Header` elements, so the other
`AsciiDocElement` subclasses (`CodeBlock`, `Table`) are unreachable and not
modelled. -/
inductive DocLine
  | str (s : String)
  | header (lineNumber : Nat) (content : String) (level : Nat)
  deriving DecidableEq, Repr

def DocLine.isHeader : DocLine → Bool
  | .str _ => false
  | .header _ _ _ => true

/-- Python `hasattr(line, "content")` dispatch used by `WhitespaceRule` and
`ImageAttributesRule`: a `Header` contributes its `content`, a plain string
contributes itself (`str(line)`). -/
def getLineContent : DocLine → String
  | .str s => s
  | .header _ c _ => c

def parseGo (i : Nat) : List String → List DocLine
  | [] => []
  | line :: rest =>
    if strBeginsWith line "=" then
      .header (i + 1) line (countLeading '=' line.data) :: parseGo (i + 1) rest
    else parseGo (i + 1) rest

/-- `AsciiDocParser.parse`: one `Header` element per line that starts with
`'='`, carrying the 1-based line number, the raw line and the count of
leading `'='` characters; every other line is dropped. -/
def parse (content : String) : List DocLine :=
  parseGo 0 (splitlines content)

/-- The three document shapes accepted by the `check` entry points that
perform the `isinstance` dispatch (`dict` with a `"content"` key, raw
string, or an already-split list). -/
inductive PyDocument
  | ofDict (content : String)
  | ofString (s : String)
  | ofLines (lines : List DocLine)

/-- The `isinstance` dispatch shared by the heading, block and table rule
`check` methods: a dict contributes `document.get("content", "").splitlines()`,
a string is split into lines, and a list is used as is. -/
def PyDocument.toLines : PyDocument → List DocLine
  | .ofDict c => (splitlines c).map .str
  | .ofString s => (splitlines s).map .str
  | .ofLines ls => ls

/-! ## Heading rules (`rules/heading_rules.py`) -/

/-- The message `f"Missing space after {'=' * level}"` used by both
`HeadingFormatRule` and `WhitespaceRule`. -/
def missingSpaceMsg (level : Nat) : String :=
  "Missing space after " ++ String.mk (List.replicate level '=')

def capMsg : String := "Heading should start with uppercase letter"

/-- Python `str.islower()` on a single character, for the ASCII characters
occurring in documents: true exactly on a lowercase letter. -/
def isLowerAlpha (c : Char) : Bool := 'a' ≤ c && c ≤ 'z'

/-- The decomposition performed by `HeadingFormatRule.heading_pattern`
(`^(=+)(\s*)(.*)$` with `re.match`): `none` when the line does not start
with `'='`, otherwise the `(=+)` run length, the `(\s*)` whitespace run and
the remaining text. -/
def headingFormatGroups (line : String) : Option (Nat × List Char × String) :=
  match line.data with
  | '=' :: _ =>
    let equalsLen := countLeading '=' line.data
    let afterEq := line.data.drop equalsLen
    some (equalsLen, afterEq.takeWhile pyIsSpace, ⟨afterEq.dropWhile pyIsSpace⟩)
  | _ => none

/-- `HeadingFormatRule.check_line`: a missing-space ERROR when no whitespace
follows the `'='` run, and a capitalization WARNING when the heading text is
nonempty and its first word starts with a lowercase letter. -/
def headingFormatCheckLine (line : String) (lineNum : Nat) : List Finding :=
  match headingFormatGroups line with
  | none => []
  | some (equalsLen, space, text) =>
    (if space.isEmpty then
       [{ message := missingSpaceMsg equalsLen, severity := .error,
          position := { line := lineNum + 1 }, rule_id := some "HEAD002",
          context := some line }]
     else []) ++
    (if text ≠ "" then
       match splitWS (pyStrip text) with
       | [] => []
       | w :: _ =>
         match w.data with
         | [] => []
         | c :: _ =>
           if isLowerAlpha c then
             [{ message := capMsg, severity := .warning,
                position := { line := lineNum + 1 }, rule_id := some "HEAD002",
                context := some line }]
           else []
     else [])

def headingFormatGo (i : Nat) : List DocLine → List Finding
  | [] => []
  | .str s :: rest => headingFormatCheckLine s i ++ headingFormatGo (i + 1) rest
  | .header _ _ _ :: rest => headingFormatGo (i + 1) rest

/-- `HeadingFormatRule.check` on the document list: `enumerate` the entries
and run `check_line` on those that are `str` instances. -/
def headingFormatCheck (doc : List DocLine) : List Finding := headingFormatGo 0 doc

/-- `HeadingFormatRule.check` including the `isinstance` dispatch. -/
def headingFormatCheckPy (d : PyDocument) : List Finding :=
  headingFormatCheck d.toLines

/-- `HeadingHierarchyRule.heading_pattern` (`^(=+)\s` with `re.match`):
the level when the line starts with a run of `'='` followed immediately by
a whitespace character, otherwise `none` (backtracking cannot help: any
shorter run of `'='` is followed by `'='`). -/
def hierLevel (line : String) : Option Nat :=
  let k := countLeading '=' line.data
  if k = 0 then none
  else
    match line.data.drop k with
    | c :: _ => if pyIsSpace c then some k else none
    | [] => none

def getHeadingLevelsGo (i : Nat) : List DocLine → List (Nat × Nat × String)
  | [] => []
  | .str s :: rest =>
    match hierLevel s with
    | some k => (k, i, s) :: getHeadingLevelsGo (i + 1) rest
    | none => getHeadingLevelsGo (i + 1) rest
  | .header _ _ _ :: rest => getHeadingLevelsGo (i + 1) rest

/-- `HeadingHierarchyRule.get_heading_levels`: `(level, line_num, line)`
for each `str` entry matching the heading pattern. -/
def getHeadingLevels (doc : List DocLine) : List (Nat × Nat × String) :=
  getHeadingLevelsGo 0 doc

def hierSkipMsg (level current : Nat) : String :=
  "Heading level skipped: found h" ++ toString level ++ " after h" ++ toString current

def mkHierFinding (current : Nat) (h : Nat × Nat × String) : Finding :=
  { message := hierSkipMsg h.1 current, severity := .error,
    position := { line := h.2.1 + 1 }, rule_id := some "HEAD001",
    context := some h.2.2 }

def hierGo (current : Nat) : List (Nat × Nat × String) → List Finding
  | [] => []
  | h :: rest =>
    (if h.1 > current + 1 then [mkHierFinding current h] else []) ++ hierGo h.1 rest

/-- `HeadingHierarchyRule.check` on the document list: the first heading
sets `current_level`; each later heading whose level exceeds
`current_level + 1` is flagged, and `current_level` is updated to every
heading's level. -/
def headingHierarchyCheck (doc : List DocLine) : List Finding :=
  match getHeadingLevels doc with
  | [] => []
  | h0 :: rest => hierGo h0.1 rest

/-- `HeadingHierarchyRule.check` including the `isinstance` dispatch. -/
def headingHierarchyCheckPy (d : PyDocument) : List Finding :=
  headingHierarchyCheck d.toLines

/-- `MultipleTopLevelHeadingsRule.heading_pattern` (`^=\s`): exactly one
`'='` followed by a whitespace character. -/
def topLevelMatch (line : String) : Bool :=
  match line.data with
  | '=' :: c :: _ => pyIsSpace c
  | _ => false

def multiTopGo (i : Nat) (first : Option (Nat × String)) : List DocLine → List Finding
  | [] => []
  | .str s :: rest =>
    if topLevelMatch s then
      match first with
      | none => multiTopGo (i + 1) (some (i + 1, pyStrip s)) rest
      | some (fl, ft) =>
        { message := "Multiple top-level headings found. First heading at line "
            ++ toString fl ++ ": '" ++ ft ++ "'",
          severity := .error, position := { line := i + 1 },
          rule_id := some "HEAD003", context := some s }
          :: multiTopGo (i + 1) (some (fl, ft)) rest
    else multiTopGo (i + 1) first rest
  | .header _ _ _ :: rest => multiTopGo (i + 1) first rest

/-- `MultipleTopLevelHeadingsRule.check` on the document list: the first
level-1 heading is remembered, every later one is flagged citing it. -/
def multipleTopLevelCheck (doc : List DocLine) : List Finding :=
  multiTopGo 0 none doc

/-! ## Block rules (`rules/block_rules.py`) -/

/-- `UnterminatedBlockRule.block_markers`: marker string → block name. -/
def blockName (m : String) : Option String :=
  if m = "----" then some "listing block"
  else if m = "====" then some "example block"
  else if m = "****" then some "sidebar block"
  else if m = "...." then some "literal block"
  else if m = "____" then some "quote block"
  else if m = "|===" then some "table block"
  else if m = "////" then some "comment block"
  else if m = "++++" then some "passthrough block"
  else none

/-- Key membership in the `open_blocks` dict. -/
def keyMem (k : String) (d : List (String × Nat)) : Bool := d.any (·.1 = k)

/-- `del open_blocks[k]`: the dict holds at most one entry per key. -/
def removeKey (k : String) : List (String × Nat) → List (String × Nat)
  | [] => []
  | (k', v) :: rest => if k' = k then rest else (k', v) :: removeKey k rest

def untermMsg (name : String) : String := "Unterminated " ++ name ++ " starting"

def mkUntermFinding (i : Nat) (line name : String) : Finding :=
  { message := untermMsg name, severity := .error, position := { line := i + 1 },
    rule_id := some "BLOCK001", context := some line }

/-- Whether a later document entry terminates the marker: the look-ahead
`next_line.strip() == stripped_line` over `document[line_num + 1:]`.
Python would raise on a non-`str` entry here; such mixed documents never
reach this point (the engine's all-`Header` documents never enter
`check_line`, and direct calls pass lists of strings). -/
def laterMatch (m : String) (rest : List DocLine) : Bool :=
  rest.any fun dl =>
    match dl with
    | .str l => pyStrip l = m
    | .header _ _ _ => false

def untermGo (i : Nat) (openBlocks : List (String × Nat)) : List DocLine → List Finding
  | [] => []
  | .header _ _ _ :: rest => untermGo (i + 1) openBlocks rest
  | .str line :: rest =>
    let s := pyStrip line
    match blockName s with
    | none => untermGo (i + 1) openBlocks rest
    | some name =>
      if keyMem s openBlocks then untermGo (i + 1) (removeKey s openBlocks) rest
      else
        (if laterMatch s rest then [] else [mkUntermFinding i line name]) ++
        untermGo (i + 1) ((s, i) :: openBlocks) rest

/-- `UnterminatedBlockRule.check` on the document list: `open_blocks` is
reset, then each `str` entry whose stripped form is a marker either closes
an open block of the same marker or opens one; an opened marker with no
later matching line yields an ERROR at the opening line. -/
def unterminatedCheck (doc : List DocLine) : List Finding := untermGo 0 [] doc

/-- `UnterminatedBlockRule.check` on a plain list of line strings. -/
def unterminatedCheckLines (lines : List String) : List Finding :=
  unterminatedCheck (lines.map .str)

/-- Stripped content of a neighbouring entry, used by
`BlockSpacingRule.check_line` (`document[j].strip()`); as with the
look-ahead above, a non-`str` neighbour would raise in Python and is
unreachable. -/
def neighborStrip (doc : List DocLine) (j : Nat) : Option String :=
  match doc.get? j with
  | some (.str l) => some l
  | _ => none

def blockSpacingGo (doc : List DocLine) (i : Nat) (openBlocks : List (String × Nat)) :
    List DocLine → List Finding
  | [] => []
  | .header _ _ _ :: rest => blockSpacingGo doc (i + 1) openBlocks rest
  | .str line :: rest =>
    let s := pyStrip line
    if (blockName s).isSome then
      if keyMem s openBlocks then
        (match neighborStrip doc (i + 1) with
         | some nl =>
           if pyStrip nl ≠ "" && !(strBeginsWith (pyStrip nl) "=") then
             [{ message := "Block should be followed by a blank line",
                severity := .warning, position := { line := i + 2 },
                rule_id := some "BLOCK002", context := some nl }]
           else []
         | none => []) ++
        blockSpacingGo doc (i + 1) (removeKey s openBlocks) rest
      else
        (if i > 0 then
           match neighborStrip doc (i - 1) with
           | some pl =>
             if pyStrip pl ≠ "" && !(strBeginsWith (pyStrip pl) "=") then
               [{ message := "Block should be preceded by a blank line",
                  severity := .warning, position := { line := i + 1 },
                  rule_id := some "BLOCK002", context := some line }]
             else []
           | none => []
         else []) ++
        blockSpacingGo doc (i + 1) ((s, i) :: openBlocks) rest
    else blockSpacingGo doc (i + 1) openBlocks rest

/-- `BlockSpacingRule.check` on the document list (its marker set equals
the key set of `UnterminatedBlockRule.block_markers`). -/
def blockSpacingCheck (doc : List DocLine) : List Finding :=
  blockSpacingGo doc 0 [] doc

/-! ## Whitespace rule (`rules/whitespace_rules.py`)

`WhitespaceRule.__init__` sets `self.consecutive_empty_lines = 0`; `check`
does NOT reset it, so it is threaded explicitly: `whitespaceCheckFrom k`
models `check` on an instance whose counter currently holds `k` (a fresh
instance has `k = 0`), and returns the counter the instance holds
afterwards. -/

def mkWSFinding (i : Nat) (ctx msg : String) : Finding :=
  { message := msg, severity := .warning, position := { line := i + 1 },
    rule_id := some "WS001", context := some ctx }

/-- `[f]` when the condition holds, else no finding. -/
def condF (b : Bool) (f : Finding) : List Finding := if b then [f] else []

def admonitionMarkers : List String := ["NOTE:", "TIP:", "IMPORTANT:", "WARNING:", "CAUTION:"]

/-- `WhitespaceRule.check_line` on one entry: blank-run counting, list
marker spacing, trailing whitespace, tabs, section-title spacing and
admonition spacing, in the order of the source.  Returns the findings and
the updated `consecutive_empty_lines` counter. -/
def wsLine (doc : List DocLine) (i : Nat) (counter : Nat) (line : DocLine) :
    List Finding × Nat :=
  let c := getLineContent line
  let blank := pyStrip c = ""
  let counter' := if blank then counter + 1 else 0
  let blankFs := condF (blank && decide (counter + 1 > 2))
    (mkWSFinding i c "Too many consecutive empty lines")
  let listFs :=
    match (pyLstrip c).data with
    | [] => []
    | mch :: rest =>
      condF ((mch = '*' || mch = '-' || mch = '.') &&
             !(match rest with | ' ' :: _ => true | _ => false))
        (mkWSFinding i c ("Missing space after the marker '" ++ String.mk [mch] ++ "'"))
  let trailFs := condF (pyRstrip c ≠ c) (mkWSFinding i c "Line contains trailing whitespace")
  let tabFs := condF (c.data.contains '\t')
    (mkWSFinding i c "Line contains tabs (use spaces instead)")
  let titleFs :=
    if strBeginsWith c "=" then
      let lvl := countLeading '=' c.data
      condF (match c.data.drop lvl with | ch :: _ => ch ≠ ' ' | [] => false)
        (mkWSFinding i c (missingSpaceMsg lvl)) ++
      condF (decide (0 < i) &&
             (match doc.get? (i - 1) with
              | some pl => pyStrip (getLineContent pl) ≠ ""
              | none => false))
        (mkWSFinding i c "Section title should be preceded by a blank line") ++
      condF (decide (i < doc.length - 1) &&
             (match doc.get? (i + 1) with
              | some nl => pyStrip (getLineContent nl) ≠ ""
              | none => false))
        (mkWSFinding i c "Section title should be followed by a blank line")
    else []
  let adFs := condF
    ((admonitionMarkers.any fun m => strBeginsWith (pyStrip c) m) &&
     decide (0 < i) &&
     (match doc.get? (i - 1) with
      | some pl => pyStrip (getLineContent pl) ≠ ""
      | none => false))
    (mkWSFinding i c "Admonition block should be preceded by a blank line")
  (blankFs ++ listFs ++ trailFs ++ tabFs ++ titleFs ++ adFs, counter')

def wsGo (doc : List DocLine) (i : Nat) (counter : Nat) : List DocLine → List Finding × Nat
  | [] => ([], counter)
  | l :: rest =>
    let r := wsLine doc i counter l
    let r' := wsGo doc (i + 1) r.2 rest
    (r.1 ++ r'.1, r'.2)

/-- `WhitespaceRule.check` on an instance whose `consecutive_empty_lines`
field holds `counter` on entry. -/
def whitespaceCheckFrom (counter : Nat) (doc : List DocLine) : List Finding × Nat :=
  wsGo doc 0 counter doc

/-! ## Image rule (`rules/image_rules.py`)

The filesystem collaborator `os.path.isfile` is passed in as an oracle
`isfile : String → Bool`. -/

def mkImgFinding (i : Nat) (ctx msg : String) (sev : Severity) : Finding :=
  { message := msg, severity := sev, position := { line := i + 1 },
    rule_id := some "IMG001", context := some ctx }

/-- `_check_image_path`: `http://`, `https://` and `ftp://` targets bypass
the existence check; otherwise the stripped path must exist. -/
def checkImagePath (isfile : String → Bool) (i : Nat) (ctx path : String) : List Finding :=
  if strBeginsWith path "http://" || strBeginsWith path "https://" ||
     strBeginsWith path "ftp://" then []
  else
    if isfile (pyStrip path) then []
    else [mkImgFinding i ctx ("Image file not found: " ++ pyStrip path) .warning]

/-- Splitting an attribute string on commas outside double quotes
(`_parse_attributes`): every comma outside quotes ends a (stripped) part;
the final part is kept only when nonempty. -/
def splitAttrParts : List Char → Bool → List Char → List String
  | [], _, acc => if acc.isEmpty then [] else [pyStrip ⟨acc.reverse⟩]
  | ch :: rest, inQ, acc =>
    if ch = '"' then splitAttrParts rest (!inQ) ('"' :: acc)
    else if ch = ',' && !inQ then pyStrip ⟨acc.reverse⟩ :: splitAttrParts rest inQ []
    else splitAttrParts rest inQ (ch :: acc)

/-- Python dict assignment `attributes[k] = v` (insertion order kept, one
entry per key). -/
def upsert (d : List (String × String)) (k v : String) : List (String × String) :=
  match d with
  | [] => [(k, v)]
  | (k', v') :: rest => if k' = k then (k, v) :: rest else (k', v') :: upsert rest k v

def lookupAttr (k : String) (d : List (String × String)) : Option String :=
  (d.find? (·.1 = k)).map (·.2)

def parseAttrsGo (i : Nat) (attrs : List (String × String)) :
    List String → List (String × String)
  | [] => attrs
  | part :: rest =>
    let p := pyStrip part
    if p.data.contains '=' then
      let kv := splitOnce '=' p.data
      let value := stripSet ['"'] (pyStrip ⟨kv.2⟩)
      parseAttrsGo (i + 1) (upsert attrs (pyStrip ⟨kv.1⟩) value) rest
    else if i = 0 then parseAttrsGo (i + 1) (upsert attrs "alt" p) rest
    else parseAttrsGo (i + 1) attrs rest

/-- `_parse_attributes`: strip surrounding brackets, split on commas outside
double quotes, then read `key=value` pairs (value unquoted) and treat the
first keyless part as the alt text. -/
def parseAttributes (attrString : String) : List (String × String) :=
  let s := stripSet ['[', ']'] attrString
  if s = "" then []
  else parseAttrsGo 0 [] (splitAttrParts s.data false [])

def imageTypeName (isBlock : Bool) : String := if isBlock then "block" else "inline"

/-- `_check_attributes`: missing/empty alt text is a WARNING, alt text
shorter than 5 characters an INFO; a block image with an empty attribute
dict additionally gets a missing-attributes WARNING. -/
def checkAttributesF (i : Nat) (ctx : String) (isBlock : Bool) (path : String)
    (attrs : List (String × String)) : List Finding :=
  (match lookupAttr "alt" attrs with
   | none =>
     [mkImgFinding i ctx ("Missing alt text for " ++ imageTypeName isBlock ++ " image: " ++ path) .warning]
   | some a =>
     if a = "" then
       [mkImgFinding i ctx ("Missing alt text for " ++ imageTypeName isBlock ++ " image: " ++ path) .warning]
     else if a.length < 5 then
       [mkImgFinding i ctx ("Alt text too short for " ++ imageTypeName isBlock ++ " image: " ++ path) .info]
     else []) ++
  (if isBlock && attrs.isEmpty then
     [mkImgFinding i ctx ("Missing required attributes for block image: " ++ path) .warning]
   else [])

def lastIdxOf (c : Char) (cs : List Char) : Option Nat :=
  match cs.reverse.findIdx? (· = c) with
  | none => none
  | some j => some (cs.length - 1 - j)

/-- `re.match(r"image::([^[]+)(?:\[(.*)\])?", stripped)`: a block image
macro at the start of the stripped line; the greedy bracket group extends
to the last `']'`. -/
def blockImageMatch (cs : List Char) : Option (String × Option String) :=
  if beginsWith "image::".data cs then
    let after := cs.drop 7
    let path := after.takeWhile (· ≠ '[')
    if path.isEmpty then none
    else
      let rest2 := after.drop path.length
      match rest2 with
      | '[' :: t =>
        match lastIdxOf ']' t with
        | some j => some (⟨path⟩, some ⟨t.take j⟩)
        | none => some (⟨path⟩, none)
      | _ => some (⟨path⟩, none)
  else none

/-- `re.finditer(r"image:([^[]+)(?:\[(.*?)\])?", line)`: scan left to
right, non-overlapping; the path is the maximal nonempty run of
non-`'['` characters after `image:`, the lazy bracket group ends at the
first `']'` (and is dropped when no `']'` follows).  The fuel argument
(initially the string length) bounds the recursion; every step consumes at
least one character, so it never runs out. -/
def inlineScanF : Nat → List Char → List (String × Option String)
  | 0, _ => []
  | _, [] => []
  | fuel + 1, c :: rest =>
    if beginsWith "image:".data (c :: rest) then
      let after := (c :: rest).drop 6
      let path := after.takeWhile (· ≠ '[')
      if path.isEmpty then inlineScanF fuel rest
      else
        let rest2 := after.drop path.length
        match rest2 with
        | '[' :: t =>
          match t.findIdx? (· = ']') with
          | some j => (⟨path⟩, some ⟨t.take j⟩) :: inlineScanF fuel (t.drop (j + 1))
          | none => (⟨path⟩, none) :: inlineScanF fuel rest2
        | _ => (⟨path⟩, none) :: inlineScanF fuel rest2
    else inlineScanF fuel rest

def inlineScan (cs : List Char) : List (String × Option String) :=
  inlineScanF cs.length cs

/-- `ImageAttributesRule.check_line`: a block image match (on the stripped
content) short-circuits; otherwise every inline match on the raw content is
checked.  `group(2) or ""` maps an absent bracket group to `""`. -/
def imageCheckLine (isfile : String → Bool) (i : Nat) (line : DocLine) : List Finding :=
  let content := getLineContent line
  match blockImageMatch (pyStrip content).data with
  | some m =>
    let attrs := parseAttributes (m.2.getD "")
    checkImagePath isfile i content m.1 ++ checkAttributesF i content true m.1 attrs
  | none =>
    (inlineScan content.data).flatMap fun m =>
      let attrs := parseAttributes (m.2.getD "")
      checkImagePath isfile i content m.1 ++ checkAttributesF i content false m.1 attrs

def imageGo (isfile : String → Bool) (i : Nat) : List DocLine → List Finding
  | [] => []
  | l :: rest => imageCheckLine isfile i l ++ imageGo isfile (i + 1) rest

/-- `ImageAttributesRule.check`: `check_line` over the enumerated document
entries (no `isinstance` dispatch; `Header` entries contribute their
`content`). -/
def imageCheck (isfile : String → Bool) (doc : List DocLine) : List Finding :=
  imageGo isfile 0 doc

/-! ## Table rules (`rules/table_rules.py`): the structure rule -/

/-- `TableFormatRule.extract_table_lines` on a list of line strings: a
stripped `|===` toggles the inside-table state; opening and closing marker
lines are part of the captured region, and an unclosed trailing region is
returned as well. -/
def extractGo (i : Nat) (inTable : Bool) (current : List (Nat × String)) :
    List String → List (List (Nat × String))
  | [] => if inTable && !current.isEmpty then [current] else []
  | l :: rest =>
    if pyStrip l = "|===" then
      if inTable then (current ++ [(i, l)]) :: extractGo (i + 1) false [] rest
      else extractGo (i + 1) true [(i, l)] rest
    else
      if inTable then extractGo (i + 1) inTable (current ++ [(i, l)]) rest
      else extractGo (i + 1) false [] rest

def extractTables (lines : List String) : List (List (Nat × String)) :=
  extractGo 0 false [] lines

/-- `TableStructureRule.count_columns`: number of `'|'`-separated cells
after the leading empty segment (`line.split("|")[1:]`). -/
def countColumns (line : String) : Nat :=
  if pyStrip line = "|===" then 0
  else ((pySplitChar '|' line).drop 1).length

/-- `table_lines[1:-1]`: the rows between the delimiter lines. -/
def tableMiddle (t : List (Nat × String)) : List (Nat × String) :=
  (t.drop 1).dropLast

def inconsistentMsg (expected found : Nat) : String :=
  "Inconsistent column count. Expected " ++ toString expected ++ ", found " ++ toString found

def mkInconsFinding (expected : Nat) (r : Nat × String) : Finding :=
  { message := inconsistentMsg expected (countColumns (pyStrip r.2)), severity := .error,
    position := { line := r.1 + 1 }, rule_id := some "TABLE002", context := some r.2 }

/-- The loop of `TableStructureRule.check_table_structure`: skip blank
rows, count only rows containing `'|'` that are not the `|===` marker; the
first such row fixes `column_count`, every later row with a different count
yields an ERROR.  Returns the findings and the final `content_lines`. -/
def structGo (cc : Option Nat) (n : Nat) : List (Nat × String) → List Finding × Nat
  | [] => ([], n)
  | (ln, line) :: rest =>
    let s := pyStrip line
    if s = "" then structGo cc n rest
    else if s.data.contains '|' && s ≠ "|===" then
      let cur := countColumns s
      match cc with
      | none => structGo (some cur) (n + 1) rest
      | some c0 =>
        let r := structGo (some c0) (n + 1) rest
        ((if cur ≠ c0 then [mkInconsFinding c0 (ln, line)] else []) ++ r.1, r.2)
    else structGo cc n rest

def mkEmptyTableFinding (first : Nat × String) : Finding :=
  { message := "Empty table", severity := .warning, position := { line := first.1 + 1 },
    rule_id := some "TABLE002", context := some first.2 }

/-- `TableStructureRule.check_table_structure` (a region from
`extract_table_lines` is never empty; the `[]` case is unreachable). -/
def checkTableStructure (t : List (Nat × String)) : List Finding :=
  match t with
  | [] => []
  | first :: _ =>
    let r := structGo none 0 (tableMiddle t)
    r.1 ++ (if r.2 = 0 then [mkEmptyTableFinding first] else [])

/-- `TableStructureRule.check` on a list of line strings: extract the table
regions and check each. -/
def tableStructureCheckLines (lines : List String) : List Finding :=
  (extractTables lines).flatMap checkTableStructure

/-! ## The engine (`linter.py`, `reporter.py`) -/

/-- The `if source:` attachment loop of `lint_string` (`error.file =
source`); Python treats both `None` and `""` as falsy. -/
def setFile (source : Option String) (errors : List Finding) : List Finding :=
  match source with
  | none => errors
  | some s => if s = "" then errors else errors.map fun f => { f with file := some s }

/-- `AsciiDocLinter.lint_string`: parse the content, run the seven
registered rules in construction order on the parser output, concatenate
their findings, attach the source path.  The shared `WhitespaceRule`
instance's counter on entry is `wsCounter` (0 for a fresh
`AsciiDocLinter`), and `isfile` is the filesystem oracle used by the image
rule. -/
def lint_string (isfile : String → Bool) (wsCounter : Nat) (content : String)
    (source : Option String) : LintReport :=
  let document := parse content
  let errors :=
    headingFormatCheck document ++
    headingHierarchyCheck document ++
    multipleTopLevelCheck document ++
    unterminatedCheck document ++
    blockSpacingCheck document ++
    (whitespaceCheckFrom wsCounter document).1 ++
    imageCheck isfile document
  LintReport.mk (setFile source errors)

/-- The names bound at the top level of `reporter.py` (read off the
source).  `LintError`, which `linter.py` imports from this module and whose
constructor `lint_file`'s exception handler calls, is not among them. -/
def reporterDefinedNames : List String :=
  ["Finding", "LintReport", "Reporter", "ConsoleReporter", "JsonReporter", "HtmlReporter"]

/-- The names `linter.py` imports from `.reporter`
(`from .reporter import LintReport, LintError, ConsoleReporter, Reporter`). -/
def linterReporterImports : List String :=
  ["LintReport", "LintError", "ConsoleReporter", "Reporter"]

/-- `AsciiDocLinter.lint_file`: on a successful read, lint the content with
the file path as source.  When the read raises, the handler
`return LintReport([LintError(...)])` evaluates the name `LintError`,
which `reporter.py` does not define, so a `NameError` escapes instead of a
report (the module-level import of that name already fails for the same
reason). -/
def lint_file (isfile : String → Bool) (wsCounter : Nat) (path : String)
    (readResult : Except String String) : Except String LintReport :=
  match readResult with
  | .ok content => .ok (lint_string isfile wsCounter content (some path))
  | .error _ => .error "NameError: name 'LintError' is not defined"

/-! ## Derived notions used by the specification statements -/

/-- Findings sorted by ascending line number. -/
def SortedByLine (l : List Finding) : Prop :=
  List.Sorted (fun a b => a.position.line ≤ b.position.line) l

instance (l : List Finding) : Decidable (SortedByLine l) :=
  inferInstanceAs (Decidable (List.Pairwise _ l))

/-- A line consisting of `n` copies of `'='`. -/
def eqLine (n : Nat) : String := ⟨List.replicate n '='⟩

/-- The heading text after the markers, as decomposed by
`HeadingFormatRule.heading_pattern` (`none` when the pattern does not
match). -/
def headingText (line : String) : Option String :=
  (headingFormatGroups line).map (·.2.2)

/-- A table row counted by `check_table_structure` as a content row:
nonblank, contains `'|'` and is not the `|===` marker. -/
def contentRow (r : Nat × String) : Bool :=
  pyStrip r.2 ≠ "" && (pyStrip r.2).data.contains '|' && pyStrip r.2 ≠ "|==="

/-- The content rows of a table region. -/
def contentRowsOf (t : List (Nat × String)) : List (Nat × String) :=
  (tableMiddle t).filter contentRow

/-- A consecutive heading pair violating the hierarchy rule: the later
level exceeds the earlier by at least 2. -/
def hierBad (p q : Nat × Nat × String) : Bool := decide (q.1 > p.1 + 1)

/-- The keys of `UnterminatedBlockRule.block_markers`. -/
def markerList : List String :=
  ["----", "====", "****", "....", "____", "|===", "////", "++++"]

/-! ## Elementary facts about the finding constructors -/

theorem mem_condF {f x : Finding} {b : Bool} (h : f ∈ condF b x) : f = x := by
  unfold condF at h
  split at h
  · simpa using h
  · simp at h

theorem msg_head_missing (l : Nat) : (missingSpaceMsg l).data.take 1 = ['M'] := rfl

theorem cap_head : capMsg.data.take 1 = ['H'] := rfl

theorem missingSpaceMsg_ne_capMsg (l : Nat) : missingSpaceMsg l ≠ capMsg := by
  intro h
  have h1 := congrArg (fun s => s.data.take 1) h
  simp only [] at h1
  rw [msg_head_missing, cap_head] at h1
  simp at h1

/-! ## C10: exit code -/

/-- C10: for every report, the exit code is 0 iff the findings list is
empty, and 1 otherwise. -/
theorem exit_code_iff_empty (r : LintReport) :
    (r.exit_code = 0 ↔ r.findings = []) ∧ (r.exit_code = 1 ↔ r.findings ≠ []) := by
  unfold LintReport.exit_code
  by_cases h : r.findings = [] <;> simp [h]

/-! ## C2: cross-document state in `WhitespaceRule` -/

/-- C2 (code bug): `WhitespaceRule.check` does not reset the instance field
`consecutive_empty_lines`, so the counter left behind by one document
(`["", ""]` leaves it at 2) makes the next `check` call flag the single
blank line of `[""]`, which a fresh instance does not flag. -/
theorem whitespaceRule_counter_leaks :
    (whitespaceCheckFrom 0 [DocLine.str ""]).1 = [] ∧
    (whitespaceCheckFrom 0 [DocLine.str "", DocLine.str ""]).2 = 2 ∧
    (whitespaceCheckFrom (whitespaceCheckFrom 0 [DocLine.str "", DocLine.str ""]).2
        [DocLine.str ""]).1 =
      [{ message := "Too many consecutive empty lines", severity := .warning,
         position := { line := 1 }, rule_id := some "WS001", context := some "" }] := by
  refine ⟨rfl, rfl, rfl⟩

/-! ## C7: `lint_file` on a read failure -/

/-- C7 (code bug): `linter.py` imports `LintError` from `reporter.py`, which
does not define it, and the read-failure handler of `lint_file` calls that
undefined name; a failing read therefore raises instead of producing the
synthetic one-finding report the specification describes. -/
theorem lint_file_read_error_raises :
    ("LintError" ∈ linterReporterImports ∧ "LintError" ∉ reporterDefinedNames) ∧
    ∀ (isfile : String → Bool) (k : Nat) (path e : String),
      lint_file isfile k path (.error e) =
        .error "NameError: name 'LintError' is not defined" :=
  ⟨⟨by decide, by decide⟩, fun _ _ _ _ => rfl⟩

/-! ## C9: `HeadingFormatRule` scenario and the empty-text edge case -/

/-- C9: on the input `"=level 1\n==level 2"` the format rule yields exactly
the four findings of the specification (a missing-space ERROR and a
lowercase WARNING per line), and a heading line whose text after the
markers is empty never receives a capitalization finding. -/
theorem headingFormat_scenario_and_empty_text :
    headingFormatCheckPy (.ofString "=level 1\n==level 2") =
      [{ message := missingSpaceMsg 1, severity := .error, position := { line := 1 },
         rule_id := some "HEAD002", context := some "=level 1" },
       { message := capMsg, severity := .warning, position := { line := 1 },
         rule_id := some "HEAD002", context := some "=level 1" },
       { message := missingSpaceMsg 2, severity := .error, position := { line := 2 },
         rule_id := some "HEAD002", context := some "==level 2" },
       { message := capMsg, severity := .warning, position := { line := 2 },
         rule_id := some "HEAD002", context := some "==level 2" }] ∧
    ∀ (line : String) (k : Nat), headingText line = some "" →
      ∀ f ∈ headingFormatCheckLine line k, f.message ≠ capMsg := by
  constructor
  · rfl
  · intro line k h f hf
    unfold headingText at h
    unfold headingFormatCheckLine at hf
    cases hg : headingFormatGroups line with
    | none => rw [hg] at hf; simp at hf
    | some g =>
      obtain ⟨el, sp, tx⟩ := g
      rw [hg] at h hf
      simp only [Option.map_some', Option.some.injEq] at h
      subst h
      simp only [ne_eq, not_true_eq_false, if_false, List.append_nil] at hf
      split at hf
      · rw [List.mem_singleton.1 hf]
        exact missingSpaceMsg_ne_capMsg el
      · simp at hf

/-- Closed-form witness for the empty-text part of the scenario theorem. -/
theorem headingFormat_empty_text_witness :
    headingText "=" = some "" ∧
    (headingFormatCheckLine "=" 0).all (fun f => decide (f.message ≠ capMsg)) = true := by
  refine ⟨by decide, ?_⟩
  rw [List.all_eq_true]
  intro f hf
  exact decide_eq_true
    (headingFormat_scenario_and_empty_text.2 "=" 0 (by decide) f hf)

/-! ## C8: lines consisting solely of `'='` characters -/

theorem countLeading_replicate (n : Nat) (c : Char) :
    countLeading c (List.replicate n c) = n := by
  induction n with
  | zero => rfl
  | succ m ih => simp [List.replicate_succ, countLeading, ih]

/-- C8 (amended): an all-`'='` line is never counted as a heading by
`HeadingHierarchyRule` (its pattern needs whitespace after the run), and it
gets no capitalization finding; but `HeadingFormatRule`'s pattern does match
it and emits exactly one missing-space ERROR for it. -/
theorem all_equals_not_heading_but_format_flags (n k : Nat) (hn : 1 ≤ n) :
    hierLevel (eqLine n) = none ∧
    headingFormatCheckLine (eqLine n) k =
      [{ message := missingSpaceMsg n, severity := .error, position := { line := k + 1 },
         rule_id := some "HEAD002", context := some (eqLine n) }] := by
  obtain ⟨m, rfl⟩ : ∃ m, n = m + 1 := ⟨n - 1, by omega⟩
  have hdata : (eqLine (m + 1)).data = List.replicate (m + 1) '=' := rfl
  have hdrop : (List.replicate (m + 1) '=').drop (m + 1) = [] :=
    List.drop_eq_nil_of_le (by simp)
  constructor
  · unfold hierLevel
    rw [hdata, countLeading_replicate]
    simp [hdrop]
  · have hg : headingFormatGroups (eqLine (m + 1)) =
        some (m + 1, [], "") := by
      unfold headingFormatGroups
      rw [show (eqLine (m + 1)).data = '=' :: List.replicate m '=' from rfl]
      simp only []
      rw [show countLeading '=' ('=' :: List.replicate m '=')
            = m + 1 from countLeading_replicate (m + 1) '=']
      rw [show ('=' :: List.replicate m '=').drop (m + 1) = [] from hdrop]
      rfl
    unfold headingFormatCheckLine
    rw [hg]
    rfl

/-- C8 counterexample: contrary to the claim that neither heading rule
emits a finding for an underline-style all-`'='` line, `HeadingFormatRule`
flags `"===="`. -/
theorem format_flags_all_equals_example :
    headingFormatCheck [DocLine.str "===="] ≠ [] := by decide

/-- Witness for the all-`'='` theorem at `n = 4`. -/
theorem all_equals_witness :
    hierLevel (eqLine 4) = none ∧
    headingFormatCheckLine (eqLine 4) 0 =
      [{ message := missingSpaceMsg 4, severity := .error, position := { line := 1 },
         rule_id := some "HEAD002", context := some (eqLine 4) }] :=
  all_equals_not_heading_but_format_flags 4 0 (by decide)

/-! ## C4: uniqueness of the unterminated-block finding -/

theorem keyMem_removeKey_false {m k : String} {d : List (String × Nat)}
    (h : keyMem m d = false) : keyMem m (removeKey k d) = false := by
  induction d with
  | nil => rfl
  | cons e rest ih =>
    simp only [keyMem, List.any_cons, Bool.or_eq_false_iff] at h
    unfold removeKey
    split
    · exact h.2
    · simpa [keyMem, h.1] using ih h.2

theorem blockName_mem {m n : String} (h : blockName m = some n) : m ∈ markerList := by
  unfold blockName at h
  by_contra hmem
  simp only [markerList, List.mem_cons, List.not_mem_nil, or_false, not_or] at hmem
  obtain ⟨h1, h2, h3, h4, h5, h6, h7, h8⟩ := hmem
  rw [if_neg h1, if_neg h2, if_neg h3, if_neg h4, if_neg h5, if_neg h6, if_neg h7,
    if_neg h8] at h
  exact absurd h (by simp)

theorem untermMsg_inj_aux :
    ∀ a ∈ markerList, ∀ b ∈ markerList,
      untermMsg ((blockName a).getD "") = untermMsg ((blockName b).getD "") → a = b := by
  decide

theorem untermMsg_inj {a b na nb : String} (ha : blockName a = some na)
    (hb : blockName b = some nb) (h : untermMsg na = untermMsg nb) : a = b := by
  refine untermMsg_inj_aux a (blockName_mem ha) b (blockName_mem hb) ?_
  rw [ha, hb]
  simpa using h

theorem laterMatch_map_false {m : String} {post : List String}
    (h : ∀ l ∈ post, pyStrip l ≠ m) : laterMatch m (post.map .str) = false := by
  induction post with
  | nil => rfl
  | cons p t ih =>
    unfold laterMatch at ih ⊢
    simp only [List.map_cons, List.any_cons, Bool.or_eq_false_iff]
    exact ⟨decide_eq_false (h p (by simp)), ih fun l hl => h l (by simp [hl])⟩

theorem untermGo_filter_nil {m name : String} (hm : blockName m = some name) :
    ∀ (rest : List String) (i : Nat) (ob : List (String × Nat)),
      (∀ l ∈ rest, pyStrip l ≠ m) →
      (untermGo i ob (rest.map .str)).filter (fun f => f.message = untermMsg name) = [] := by
  intro rest
  induction rest with
  | nil => intro i ob _; rfl
  | cons l t ih =>
    intro i ob h
    have hl : pyStrip l ≠ m := h l (by simp)
    have ht : ∀ x ∈ t, pyStrip x ≠ m := fun x hx => h x (by simp [hx])
    cases hbn : blockName (pyStrip l) with
    | none => simpa [untermGo, hbn] using ih (i + 1) ob ht
    | some nm =>
      have hne : ¬ (untermMsg nm = untermMsg name) :=
        fun he => hl (untermMsg_inj hbn hm he)
      by_cases hk : keyMem (pyStrip l) ob
      · simpa [untermGo, hbn, hk] using ih (i + 1) (removeKey (pyStrip l) ob) ht
      · simp only [List.map_cons, untermGo, hbn, hk, Bool.false_eq_true, if_false,
          List.filter_append]
        rw [ih (i + 1) ((pyStrip l, i) :: ob) ht]
        split <;> simp [mkUntermFinding, hne]

theorem untermGo_unique {m name li : String} (hm : blockName m = some name)
    (hli : pyStrip li = m) {post : List String}
    (hpost : ∀ l ∈ post, pyStrip l ≠ m) :
    ∀ (pre : List String) (i : Nat) (ob : List (String × Nat)),
      (∀ l ∈ pre, pyStrip l ≠ m) → keyMem m ob = false →
      (untermGo i ob ((pre ++ li :: post).map .str)).filter
          (fun f => f.message = untermMsg name) =
        [mkUntermFinding (i + pre.length) li name] := by
  intro pre
  induction pre with
  | nil =>
    intro i ob _ hob
    simp only [List.nil_append, List.map_cons, untermGo, hli, hm, hob, Bool.false_eq_true,
      if_false, laterMatch_map_false hpost, List.filter_append]
    rw [untermGo_filter_nil hm post (i + 1) ((m, i) :: ob) hpost]
    simp [mkUntermFinding]
  | cons p t ih =>
    intro i ob hpre hob
    have hp : pyStrip p ≠ m := hpre p (by simp)
    have ht : ∀ x ∈ t, pyStrip x ≠ m := fun x hx => hpre x (by simp [hx])
    have harith : i + 1 + t.length = i + (p :: t).length := by simp; omega
    cases hbn : blockName (pyStrip p) with
    | none =>
      rw [show ((p :: t) ++ li :: post).map DocLine.str
            = DocLine.str p :: ((t ++ li :: post).map .str) from by simp]
      rw [show untermGo i ob (DocLine.str p :: ((t ++ li :: post).map .str))
            = untermGo (i + 1) ob ((t ++ li :: post).map .str) from by
        simp [untermGo, hbn]]
      rw [ih (i + 1) ob ht hob, harith]
    | some nm =>
      have hne : ¬ (untermMsg nm = untermMsg name) :=
        fun he => hp (untermMsg_inj hbn hm he)
      by_cases hk : keyMem (pyStrip p) ob
      · rw [show ((p :: t) ++ li :: post).map DocLine.str
              = DocLine.str p :: ((t ++ li :: post).map .str) from by simp]
        rw [show untermGo i ob (DocLine.str p :: ((t ++ li :: post).map .str))
              = untermGo (i + 1) (removeKey (pyStrip p) ob) ((t ++ li :: post).map .str) from by
          simp [untermGo, hbn, hk]]
        rw [ih (i + 1) (removeKey (pyStrip p) ob) ht (keyMem_removeKey_false hob), harith]
      · have hob' : keyMem m ((pyStrip p, i) :: ob) = false := by
          simp [keyMem] at hob ⊢
          exact ⟨fun he => hp he, hob⟩
        rw [show ((p :: t) ++ li :: post).map DocLine.str
              = DocLine.str p :: ((t ++ li :: post).map .str) from by simp]
        rw [show untermGo i ob (DocLine.str p :: ((t ++ li :: post).map .str))
              = (if laterMatch (pyStrip p) ((t ++ li :: post).map .str) then []
                 else [mkUntermFinding i p nm]) ++
                untermGo (i + 1) ((pyStrip p, i) :: ob) ((t ++ li :: post).map .str) from by
          simp [untermGo, hbn, hk]]
        rw [List.filter_append, ih (i + 1) ((pyStrip p, i) :: ob) ht hob', harith]
        split <;> simp [mkUntermFinding, hne]

/-- C4: for every document given as a list of lines in which exactly one
line strips to a given block marker (one opening delimiter, no later
matching line), `UnterminatedBlockRule.check` yields exactly one
unterminated-block ERROR finding for that marker, anchored at the opening
line; the two scenario inputs behave as specified. -/
theorem unterminated_unique_finding :
    (∀ (pre post : List String) (li m name : String),
        blockName m = some name → pyStrip li = m →
        (∀ l ∈ pre, pyStrip l ≠ m) → (∀ l ∈ post, pyStrip l ≠ m) →
        (unterminatedCheckLines (pre ++ li :: post)).filter
            (fun f => f.message = untermMsg name) =
          [mkUntermFinding pre.length li name]) ∧
    unterminatedCheckLines ["----", "content", "----"] = [] ∧
    unterminatedCheckLines ["----", "content"] =
      [{ message := untermMsg "listing block", severity := .error,
         position := { line := 1 }, rule_id := some "BLOCK001",
         context := some "----" }] := by
  refine ⟨?_, by decide, by decide⟩
  intro pre post li m name hm hli hpre hpost
  simpa [unterminatedCheckLines, unterminatedCheck, List.map_append]
    using untermGo_unique hm hli hpost pre 0 [] hpre rfl

/-- Witness for the uniqueness statement: the unterminated scenario input
with an empty prefix. -/
theorem unterminated_unique_finding_witness :
    (unterminatedCheckLines ["----", "content"]).filter
        (fun f => f.message = untermMsg "listing block") =
      [mkUntermFinding 0 "----" "listing block"] := by
  have h := unterminated_unique_finding.1 [] ["content"] "----" "----" "listing block"
    rfl rfl (by simp) (by decide)
  simpa using h

/-! ## C6: heading hierarchy -/

theorem hierGo_closed :
    ∀ (hs : List (Nat × Nat × String)) (c : Nat × Nat × String),
      hierGo c.1 hs =
        (((c :: hs).zip hs).filter (fun pq => hierBad pq.1 pq.2)).map
          (fun pq => mkHierFinding pq.1.1 pq.2) := by
  intro hs
  induction hs with
  | nil => intro c; rfl
  | cons h t ih =>
    intro c
    by_cases hb : h.1 > c.1 + 1
    · simp [hierGo, hierBad, hb, ih h]
    · simp [hierGo, hierBad, hb, ih h]

theorem hierCheck_closed (doc : List DocLine) :
    headingHierarchyCheck doc =
      (((getHeadingLevels doc).zip (getHeadingLevels doc).tail).filter
          (fun pq => hierBad pq.1 pq.2)).map
        (fun pq => mkHierFinding pq.1.1 pq.2) := by
  cases hh : getHeadingLevels doc with
  | nil => simp [headingHierarchyCheck, hh]
  | cons h0 rest =>
    simp only [headingHierarchyCheck, hh, List.tail_cons]
    exact hierGo_closed rest h0

theorem ghlGo_lb :
    ∀ (doc : List DocLine) (i : Nat) (x : Nat × Nat × String),
      x ∈ getHeadingLevelsGo i doc → i ≤ x.2.1 := by
  intro doc
  induction doc with
  | nil => intro i x hx; simp [getHeadingLevelsGo] at hx
  | cons l rest ih =>
    intro i x hx
    cases l with
    | str s =>
      rw [getHeadingLevelsGo] at hx
      cases hl : hierLevel s with
      | some k =>
        rw [hl] at hx
        rcases List.mem_cons.1 hx with h | h
        · subst h; simp
        · exact Nat.le_of_succ_le (ih (i + 1) x h)
      | none =>
        rw [hl] at hx
        exact Nat.le_of_succ_le (ih (i + 1) x hx)
    | header a b c =>
      rw [getHeadingLevelsGo] at hx
      exact Nat.le_of_succ_le (ih (i + 1) x hx)

theorem ghlGo_head_lt :
    ∀ (doc : List DocLine) (i : Nat) (h0 : Nat × Nat × String)
      (t : List (Nat × Nat × String)),
      getHeadingLevelsGo i doc = h0 :: t → ∀ x ∈ t, h0.2.1 < x.2.1 := by
  intro doc
  induction doc with
  | nil => intro i h0 t h; simp [getHeadingLevelsGo] at h
  | cons l rest ih =>
    intro i h0 t h x hx
    cases l with
    | str s =>
      rw [getHeadingLevelsGo] at h
      cases hl : hierLevel s with
      | some k =>
        rw [hl] at h
        injection h with h1 h2
        subst h1; subst h2
        simpa using Nat.lt_of_succ_le (ghlGo_lb rest (i + 1) x hx)
      | none =>
        rw [hl] at h
        exact ih (i + 1) h0 t h x hx
    | header a b c =>
      rw [getHeadingLevelsGo] at h
      exact ih (i + 1) h0 t h x hx

/-- C6: a document whose consecutive heading levels always increase by
exactly one yields no hierarchy findings; when exactly one consecutive pair
skips ahead by 2 or more, exactly that pair's ERROR finding is produced at
the skipping heading's line; no finding is ever anchored at the first
heading's line; and the two scenario documents behave as specified. -/
theorem headingHierarchy_skip_findings :
    (∀ doc : List DocLine,
        (∀ pq ∈ (getHeadingLevels doc).zip (getHeadingLevels doc).tail,
          pq.2.1 = pq.1.1 + 1) →
        headingHierarchyCheck doc = []) ∧
    (∀ (doc : List DocLine) (pq : (Nat × Nat × String) × (Nat × Nat × String)),
        ((getHeadingLevels doc).zip (getHeadingLevels doc).tail).filter
            (fun r => hierBad r.1 r.2) = [pq] →
        headingHierarchyCheck doc = [mkHierFinding pq.1.1 pq.2]) ∧
    (∀ (doc : List DocLine) (f : Finding) (h0 : Nat × Nat × String)
        (t : List (Nat × Nat × String)),
        getHeadingLevels doc = h0 :: t → f ∈ headingHierarchyCheck doc →
        f.position.line ≠ h0.2.1 + 1) ∧
    headingHierarchyCheck (["= Title", "== Sec", "=== Sub"].map .str) = [] ∧
    headingHierarchyCheck (["= Title", "=== Sub"].map .str) =
      [{ message := hierSkipMsg 3 1, severity := .error, position := { line := 2 },
         rule_id := some "HEAD001", context := some "=== Sub" }] := by
  refine ⟨?_, ?_, ?_, by decide, by decide⟩
  · intro doc hstep
    rw [hierCheck_closed doc]
    have : ((getHeadingLevels doc).zip (getHeadingLevels doc).tail).filter
        (fun pq => hierBad pq.1 pq.2) = [] := by
      rw [List.filter_eq_nil_iff]
      intro pq hpq
      simp [hierBad, hstep pq hpq]
    rw [this]
    rfl
  · intro doc pq hf
    rw [hierCheck_closed doc, hf]
    rfl
  · intro doc f h0 t hh hf
    rw [hierCheck_closed doc] at hf
    simp only [List.mem_map] at hf
    obtain ⟨pq, hpq, rfl⟩ := hf
    have hzip := (List.mem_filter.1 hpq).1
    have h2 : pq.2 ∈ (getHeadingLevels doc).tail := by
      have := List.of_mem_zip (a := pq.1) (b := pq.2) (by simpa using hzip)
      exact this.2
    rw [hh] at h2
    have hlt : h0.2.1 < pq.2.2.1 :=
      ghlGo_head_lt doc 0 h0 t hh pq.2 (by simpa using h2)
    simp only [mkHierFinding]
    omega

/-- Witness for the unique-skip part of the hierarchy theorem. -/
theorem headingHierarchy_skip_witness :
    headingHierarchyCheck (["= Title", "=== Sub"].map .str) =
      [mkHierFinding 1 (3, 1, "=== Sub")] :=
  headingHierarchy_skip_findings.2.1 (["= Title", "=== Sub"].map .str)
    ((1, 0, "= Title"), (3, 1, "=== Sub")) (by decide)

/-! ## C5: table structure -/

theorem contentRow_iff {ln : Nat} {line : String} :
    contentRow (ln, line) = true ↔
      (pyStrip line ≠ "" ∧ '|' ∈ (pyStrip line).data ∧ pyStrip line ≠ "|===") := by
  simp [contentRow, and_assoc]

theorem structGo_cons (cc : Option Nat) (n ln : Nat) (line : String)
    (rest : List (Nat × String)) :
    structGo cc n ((ln, line) :: rest) =
      if contentRow (ln, line) then
        (match cc with
         | none => structGo (some (countColumns (pyStrip line))) (n + 1) rest
         | some c0 =>
           ((if countColumns (pyStrip line) ≠ c0 then [mkInconsFinding c0 (ln, line)] else [])
             ++ (structGo (some c0) (n + 1) rest).1,
            (structGo (some c0) (n + 1) rest).2))
      else structGo cc n rest := by
  by_cases h1 : pyStrip line = ""
  · have hcr : contentRow (ln, line) = false := by simp [contentRow, h1]
    rw [hcr]
    simp [structGo, h1]
  · by_cases h2 : '|' ∈ (pyStrip line).data ∧ pyStrip line ≠ "|==="
    · have hcr : contentRow (ln, line) = true := contentRow_iff.2 ⟨h1, h2.1, h2.2⟩
      rw [hcr]
      cases cc <;> simp [structGo, h1, h2.1, h2.2]
    · have hcr : contentRow (ln, line) = false := by
        rw [← Bool.not_eq_true, contentRow_iff]
        intro hc
        exact h2 ⟨hc.2.1, hc.2.2⟩
      push_neg at h2
      have hb : ((pyStrip line).data.contains '|' && decide (pyStrip line ≠ "|===")) = false := by
        by_cases hm : '|' ∈ (pyStrip line).data
        · simp [hm, h2 hm]
        · simp [hm]
      rw [hcr]
      simp only [Bool.false_eq_true, if_false, ite_false]
      simp only [structGo]
      rw [if_neg h1, if_neg (show ¬(((pyStrip line).data.contains '|'
        && decide (pyStrip line ≠ "|===")) = true) from by simp; exact h2)]

theorem structGo_some (rows : List (Nat × String)) :
    ∀ (c0 n : Nat),
      structGo (some c0) n rows =
        (((rows.filter contentRow).filter
            (fun r => decide (countColumns (pyStrip r.2) ≠ c0))).map (mkInconsFinding c0),
         n + (rows.filter contentRow).length) := by
  induction rows with
  | nil => intro c0 n; simp [structGo]
  | cons r rest ih =>
    intro c0 n
    obtain ⟨ln, line⟩ := r
    rw [structGo_cons, List.filter_cons]
    by_cases hcr : contentRow (ln, line) = true
    · rw [hcr]
      simp only [if_true, ite_true]
      rw [ih c0 (n + 1), List.filter_cons]
      by_cases h3 : countColumns (pyStrip line) = c0
      · rw [if_neg (by simp [h3])]
        rw [Prod.mk.injEq]
        refine ⟨by simp [h3], ?_⟩
        simp only [List.length_cons]
        omega
      · rw [if_pos (by simp [h3])]
        rw [Prod.mk.injEq]
        refine ⟨by simp [h3], ?_⟩
        simp only [List.length_cons]
        omega
    · rw [Bool.not_eq_true] at hcr
      rw [hcr]
      simp only [if_false, Bool.false_eq_true, ite_false]
      exact ih c0 n

theorem structGo_none_nil (rows : List (Nat × String))
    (hn : rows.filter contentRow = []) : ∀ n, structGo none n rows = ([], n) := by
  induction rows with
  | nil => intro n; rfl
  | cons r rest ih =>
    intro n
    rw [List.filter_cons] at hn
    obtain ⟨ln, line⟩ := r
    by_cases hcr : contentRow (ln, line) = true
    · rw [if_pos hcr] at hn; simp at hn
    · rw [if_neg hcr] at hn
      rw [Bool.not_eq_true] at hcr
      rw [structGo_cons, hcr]
      simp only [Bool.false_eq_true, if_false, ite_false]
      exact ih hn n

theorem structGo_none_cons (rows : List (Nat × String)) :
    ∀ (r0 : Nat × String) (rs : List (Nat × String)),
      rows.filter contentRow = r0 :: rs → ∀ n,
      structGo none n rows =
        ((rs.filter
            (fun r => decide (countColumns (pyStrip r.2) ≠ countColumns (pyStrip r0.2)))).map
          (mkInconsFinding (countColumns (pyStrip r0.2))),
         n + 1 + rs.length) := by
  induction rows with
  | nil => intro r0 rs h; simp at h
  | cons r rest ih =>
    intro r0 rs hn n
    rw [List.filter_cons] at hn
    obtain ⟨ln, line⟩ := r
    by_cases hcr : contentRow (ln, line) = true
    · rw [if_pos hcr] at hn
      injection hn with hn1 hn2
      subst hn1
      rw [structGo_cons, hcr]
      simp only [if_true, ite_true]
      rw [structGo_some rest (countColumns (pyStrip line)) (n + 1), hn2]
    · rw [if_neg hcr] at hn
      rw [Bool.not_eq_true] at hcr
      rw [structGo_cons, hcr]
      simp only [Bool.false_eq_true, if_false, ite_false]
      exact ih r0 rs hn n

/-- C5 (amended): within one table region, if every content row has the
first content row's cell count, `TableStructureRule` yields no finding for
the table; otherwise it yields one ERROR finding at EACH divergent content
row (not one per table), each citing the expected (first-row) and actual
counts; a region with no content rows yields the empty-table WARNING; and
the scenario table yields exactly one ERROR citing expected 2, found 3. -/
theorem tableStructure_per_divergent_row :
    (∀ (t : List (Nat × String)) (r0 : Nat × String) (rs : List (Nat × String)),
        contentRowsOf t = r0 :: rs →
        checkTableStructure t =
          ((rs.filter
              (fun r => decide (countColumns (pyStrip r.2) ≠ countColumns (pyStrip r0.2)))).map
            (mkInconsFinding (countColumns (pyStrip r0.2))))) ∧
    (∀ (t : List (Nat × String)) (r0 : Nat × String) (rs : List (Nat × String)),
        contentRowsOf t = r0 :: rs →
        (∀ r ∈ rs, countColumns (pyStrip r.2) = countColumns (pyStrip r0.2)) →
        checkTableStructure t = []) ∧
    (∀ (first : Nat × String) (mid : List (Nat × String)),
        contentRowsOf (first :: mid) = [] →
        checkTableStructure (first :: mid) = [mkEmptyTableFinding first]) ∧
    tableStructureCheckLines ["|===", "|A|B", "|1|2|3", "|==="] =
      [{ message := inconsistentMsg 2 3, severity := .error, position := { line := 3 },
         rule_id := some "TABLE002", context := some "|1|2|3" }] := by
  have hmain : ∀ (t : List (Nat × String)) (r0 : Nat × String) (rs : List (Nat × String)),
      contentRowsOf t = r0 :: rs →
      checkTableStructure t =
        ((rs.filter
            (fun r => decide (countColumns (pyStrip r.2) ≠ countColumns (pyStrip r0.2)))).map
          (mkInconsFinding (countColumns (pyStrip r0.2)))) := by
    intro t r0 rs hc
    cases t with
    | nil => simp [contentRowsOf, tableMiddle] at hc
    | cons first mid =>
      unfold checkTableStructure
      rw [structGo_none_cons (tableMiddle (first :: mid)) r0 rs hc 0]
      simp
  refine ⟨hmain, ?_, ?_, by decide⟩
  · intro t r0 rs hc hall
    rw [hmain t r0 rs hc]
    have : rs.filter
        (fun r => decide (countColumns (pyStrip r.2) ≠ countColumns (pyStrip r0.2))) = [] := by
      rw [List.filter_eq_nil_iff]
      intro r hr
      simp [hall r hr]
    rw [this]
    rfl
  · intro first mid hc
    unfold checkTableStructure
    rw [structGo_none_nil (tableMiddle (first :: mid)) hc 0]
    rfl

/-- C5 counterexample: a table with two divergent rows receives two
findings, refuting "exactly one finding for the whole table". -/
theorem tableStructure_two_findings_example :
    (tableStructureCheckLines ["|===", "|A|B", "|1|2|3", "|4|5|6", "|==="]).length = 2 ∧
    tableStructureCheckLines ["|===", "|A|B", "|1|2|3", "|4|5|6", "|==="] =
      [{ message := inconsistentMsg 2 3, severity := .error, position := { line := 3 },
         rule_id := some "TABLE002", context := some "|1|2|3" },
       { message := inconsistentMsg 2 3, severity := .error, position := { line := 4 },
         rule_id := some "TABLE002", context := some "|4|5|6" }] := by
  exact ⟨rfl, rfl⟩

/-- Witness for the per-divergent-row statement on the scenario table
region. -/
theorem tableStructure_per_divergent_row_witness :
    checkTableStructure [(0, "|==="), (1, "|A|B"), (2, "|1|2|3"), (3, "|===")] =
      [mkInconsFinding 2 (2, "|1|2|3")] := by
  have h := tableStructure_per_divergent_row.1
    [(0, "|==="), (1, "|A|B"), (2, "|1|2|3"), (3, "|===")]
    (1, "|A|B") [(2, "|1|2|3")] (by decide)
  rw [h]
  rfl

/-! ## Documents consisting solely of `Header` elements -/

theorem parseGo_all_header :
    ∀ (ls : List String) (i : Nat), ∀ e ∈ parseGo i ls, e.isHeader = true := by
  intro ls
  induction ls with
  | nil => intro i e he; simp [parseGo] at he
  | cons l t ih =>
    intro i e he
    rw [parseGo] at he
    split at he
    · rcases List.mem_cons.1 he with h | h
      · subst h; rfl
      · exact ih (i + 1) e h
    · exact ih (i + 1) e he

theorem parseGo_length :
    ∀ (ls : List String) (i : Nat),
      (parseGo i ls).length = (ls.filter (fun l => strBeginsWith l "=")).length := by
  intro ls
  induction ls with
  | nil => intro i; rfl
  | cons l t ih =>
    intro i
    rw [parseGo, List.filter_cons]
    by_cases h : strBeginsWith l "=" = true
    · simp [h, ih (i + 1)]
    · simp [h, ih (i + 1)]

theorem headingFormatGo_headers :
    ∀ (doc : List DocLine) (i : Nat), (∀ e ∈ doc, e.isHeader = true) →
      headingFormatGo i doc = [] := by
  intro doc
  induction doc with
  | nil => intro i _; rfl
  | cons l t ih =>
    intro i h
    cases l with
    | str s => exact absurd (h (.str s) (by simp)) (by simp [DocLine.isHeader])
    | header a b c =>
      rw [headingFormatGo]
      exact ih (i + 1) fun e he => h e (by simp [he])

theorem getHeadingLevelsGo_headers :
    ∀ (doc : List DocLine) (i : Nat), (∀ e ∈ doc, e.isHeader = true) →
      getHeadingLevelsGo i doc = [] := by
  intro doc
  induction doc with
  | nil => intro i _; rfl
  | cons l t ih =>
    intro i h
    cases l with
    | str s => exact absurd (h (.str s) (by simp)) (by simp [DocLine.isHeader])
    | header a b c =>
      rw [getHeadingLevelsGo]
      exact ih (i + 1) fun e he => h e (by simp [he])

theorem multiTopGo_headers :
    ∀ (doc : List DocLine) (i : Nat) (first : Option (Nat × String)),
      (∀ e ∈ doc, e.isHeader = true) → multiTopGo i first doc = [] := by
  intro doc
  induction doc with
  | nil => intro i first _; rfl
  | cons l t ih =>
    intro i first h
    cases l with
    | str s => exact absurd (h (.str s) (by simp)) (by simp [DocLine.isHeader])
    | header a b c =>
      rw [multiTopGo]
      exact ih (i + 1) first fun e he => h e (by simp [he])

theorem untermGo_headers :
    ∀ (doc : List DocLine) (i : Nat) (ob : List (String × Nat)),
      (∀ e ∈ doc, e.isHeader = true) → untermGo i ob doc = [] := by
  intro doc
  induction doc with
  | nil => intro i ob _; rfl
  | cons l t ih =>
    intro i ob h
    cases l with
    | str s => exact absurd (h (.str s) (by simp)) (by simp [DocLine.isHeader])
    | header a b c =>
      rw [untermGo]
      exact ih (i + 1) ob fun e he => h e (by simp [he])

theorem blockSpacingGo_headers :
    ∀ (doc : List DocLine) (doc0 : List DocLine) (i : Nat) (ob : List (String × Nat)),
      (∀ e ∈ doc, e.isHeader = true) → blockSpacingGo doc0 i ob doc = [] := by
  intro doc
  induction doc with
  | nil => intro doc0 i ob _; rfl
  | cons l t ih =>
    intro doc0 i ob h
    cases l with
    | str s => exact absurd (h (.str s) (by simp)) (by simp [DocLine.isHeader])
    | header a b c =>
      rw [blockSpacingGo]
      exact ih doc0 (i + 1) ob fun e he => h e (by simp [he])

theorem parse_all_header (content : String) : ∀ e ∈ parse content, e.isHeader = true :=
  parseGo_all_header (splitlines content) 0

/-! ## Each emitting rule produces findings in scan order -/

theorem mkWSFinding_line (i : Nat) (ctx msg : String) :
    (mkWSFinding i ctx msg).position.line = i + 1 := rfl

theorem wsLine_line (doc : List DocLine) (i k : Nat) (l : DocLine) :
    ∀ f ∈ (wsLine doc i k l).1, f.position.line = i + 1 := by
  intro f hf
  simp only [wsLine] at hf
  have hcond : ∀ (b : Bool) (msg : String),
      f ∈ condF b (mkWSFinding i (getLineContent l) msg) → f.position.line = i + 1 := by
    intro b msg h
    rw [mem_condF h]
    rfl
  rcases List.mem_append.1 hf with hf | h
  · rcases List.mem_append.1 hf with hf | h
    · rcases List.mem_append.1 hf with hf | h
      · rcases List.mem_append.1 hf with hf | h
        · rcases List.mem_append.1 hf with h | h
          · exact hcond _ _ h
          · rcases hm : (pyLstrip (getLineContent l)).data with _ | ⟨mch, restc⟩ <;>
              rw [hm] at h
            · simp at h
            · exact hcond _ _ h
        · exact hcond _ _ h
      · exact hcond _ _ h
    · split at h
      · rcases List.mem_append.1 h with h1 | h2
        · rcases List.mem_append.1 h1 with h2 | h2
          · exact hcond _ _ h2
          · exact hcond _ _ h2
        · exact hcond _ _ h2
      · simp at h
  · exact hcond _ _ h

theorem wsGo_lb :
    ∀ (rest doc : List DocLine) (i k : Nat),
      ∀ f ∈ (wsGo doc i k rest).1, i + 1 ≤ f.position.line := by
  intro rest
  induction rest with
  | nil => intro doc i k f hf; simp [wsGo] at hf
  | cons l t ih =>
    intro doc i k f hf
    simp only [wsGo] at hf
    rcases List.mem_append.1 hf with h | h
    · rw [wsLine_line doc i k l f h]
    · have := ih doc (i + 1) (wsLine doc i k l).2 f h
      omega

theorem sortedByLine_all_eq {l : List Finding} {n : Nat}
    (h : ∀ f ∈ l, f.position.line = n) : SortedByLine l := by
  induction l with
  | nil => exact List.Pairwise.nil
  | cons a t ih =>
    refine List.Pairwise.cons ?_ (ih fun f hf => h f (by simp [hf]))
    intro b hb
    rw [h a (by simp), h b (by simp [hb])]

theorem wsGo_sorted :
    ∀ (rest doc : List DocLine) (i k : Nat), SortedByLine (wsGo doc i k rest).1 := by
  intro rest
  induction rest with
  | nil => intro doc i k; exact List.Pairwise.nil
  | cons l t ih =>
    intro doc i k
    simp only [wsGo]
    refine List.pairwise_append.2
      ⟨sortedByLine_all_eq (wsLine_line doc i k l), ih doc (i + 1) _, ?_⟩
    intro a ha b hb
    have h1 := wsLine_line doc i k l a ha
    have h2 := wsGo_lb t doc (i + 1) (wsLine doc i k l).2 b hb
    omega

theorem mkImgFinding_line (i : Nat) (ctx msg : String) (sev : Severity) :
    (mkImgFinding i ctx msg sev).position.line = i + 1 := rfl

theorem checkImagePath_line (isfile : String → Bool) (i : Nat) (ctx path : String) :
    ∀ f ∈ checkImagePath isfile i ctx path, f.position.line = i + 1 := by
  intro f hf
  unfold checkImagePath at hf
  split at hf
  · simp at hf
  · split at hf
    · simp at hf
    · rw [List.mem_singleton.1 hf]
      rfl

theorem checkAttributesF_line (i : Nat) (ctx : String) (isBlock : Bool) (path : String)
    (attrs : List (String × String)) :
    ∀ f ∈ checkAttributesF i ctx isBlock path attrs, f.position.line = i + 1 := by
  intro f hf
  unfold checkAttributesF at hf
  have hconc : ∀ (msg : String) (sev : Severity),
      f = mkImgFinding i ctx msg sev → f.position.line = i + 1 := by
    intro msg sev h
    rw [h]
    rfl
  rcases List.mem_append.1 hf with h | h
  · rcases hm : lookupAttr "alt" attrs with _ | a <;> simp only [hm] at h
    · exact hconc _ _ (List.mem_singleton.1 h)
    · by_cases h1 : a = ""
      · rw [if_pos h1] at h
        exact hconc _ _ (List.mem_singleton.1 h)
      · rw [if_neg h1] at h
        by_cases h2 : a.length < 5
        · rw [if_pos h2] at h
          exact hconc _ _ (List.mem_singleton.1 h)
        · rw [if_neg h2] at h
          simp at h
  · by_cases h1 : (isBlock && attrs.isEmpty) = true
    · rw [if_pos h1] at h
      exact hconc _ _ (List.mem_singleton.1 h)
    · rw [if_neg h1] at h
      simp at h

theorem imageCheckLine_line (isfile : String → Bool) (i : Nat) (l : DocLine) :
    ∀ f ∈ imageCheckLine isfile i l, f.position.line = i + 1 := by
  intro f hf
  simp only [imageCheckLine] at hf
  rcases hb : blockImageMatch (pyStrip (getLineContent l)).data with _ | m <;>
    simp only [hb] at hf
  · rw [List.mem_flatMap] at hf
    obtain ⟨m, _, hm⟩ := hf
    rcases List.mem_append.1 hm with h | h
    · exact checkImagePath_line _ _ _ _ f h
    · exact checkAttributesF_line _ _ _ _ _ f h
  · rcases List.mem_append.1 hf with h | h
    · exact checkImagePath_line _ _ _ _ f h
    · exact checkAttributesF_line _ _ _ _ _ f h

theorem imageGo_lb :
    ∀ (rest : List DocLine) (isfile : String → Bool) (i : Nat),
      ∀ f ∈ imageGo isfile i rest, i + 1 ≤ f.position.line := by
  intro rest
  induction rest with
  | nil => intro isfile i f hf; simp [imageGo] at hf
  | cons l t ih =>
    intro isfile i f hf
    rw [imageGo] at hf
    rcases List.mem_append.1 hf with h | h
    · rw [imageCheckLine_line isfile i l f h]
    · have := ih isfile (i + 1) f h
      omega

theorem imageGo_sorted :
    ∀ (rest : List DocLine) (isfile : String → Bool) (i : Nat),
      SortedByLine (imageGo isfile i rest) := by
  intro rest
  induction rest with
  | nil => intro isfile i; exact List.Pairwise.nil
  | cons l t ih =>
    intro isfile i
    rw [imageGo]
    refine List.pairwise_append.2
      ⟨sortedByLine_all_eq (imageCheckLine_line isfile i l), ih isfile (i + 1), ?_⟩
    intro a ha b hb
    have h1 := imageCheckLine_line isfile i l a ha
    have h2 := imageGo_lb t isfile (i + 1) b hb
    omega

/-! ## C3: the parser output and the `str`-only rules -/

/-- C3: for every content string, the document handed to the rules by
`lint_string` contains only `Header` elements, one per line that begins
with `'='`; consequently every rule whose `check` skips non-`str` entries
(`HeadingFormatRule`, `HeadingHierarchyRule`, `MultipleTopLevelHeadingsRule`,
`UnterminatedBlockRule`, `BlockSpacingRule`) — in particular
`UnterminatedBlockRule` — contributes zero findings to any
`lint_string` report. -/
theorem parse_only_headers_and_str_rules_vanish (content : String) :
    (∀ e ∈ parse content, e.isHeader = true) ∧
    (parse content).length =
      ((splitlines content).filter (fun l => strBeginsWith l "=")).length ∧
    unterminatedCheck (parse content) = [] ∧
    headingFormatCheck (parse content) = [] ∧
    headingHierarchyCheck (parse content) = [] ∧
    multipleTopLevelCheck (parse content) = [] ∧
    blockSpacingCheck (parse content) = [] := by
  have hall := parse_all_header content
  refine ⟨hall, parseGo_length (splitlines content) 0, ?_, ?_, ?_, ?_, ?_⟩
  · exact untermGo_headers (parse content) 0 [] hall
  · exact headingFormatGo_headers (parse content) 0 hall
  · unfold headingHierarchyCheck getHeadingLevels
    rw [getHeadingLevelsGo_headers (parse content) 0 hall]
  · exact multiTopGo_headers (parse content) 0 none hall
  · exact blockSpacingGo_headers (parse content) (parse content) 0 [] hall

/-! ## C1: ordering of the engine's report -/

/-- C1 (amended): `lint_string` concatenates the rules' findings in
registration order without any sort; on the parser output only the
whitespace and image rules ever contribute, each contributing its findings
in ascending line order, but the concatenated report as a whole is NOT
sorted by line. -/
theorem lintString_blocks_ordered_no_sort (isfile : String → Bool) (k : Nat)
    (content : String) (src : Option String) :
    (lint_string isfile k content src).findings =
      setFile src ((whitespaceCheckFrom k (parse content)).1 ++
        imageCheck isfile (parse content)) ∧
    SortedByLine (whitespaceCheckFrom k (parse content)).1 ∧
    SortedByLine (imageCheck isfile (parse content)) := by
  have hall := parse_all_header content
  refine ⟨?_, wsGo_sorted (parse content) (parse content) 0 k,
    imageGo_sorted (parse content) isfile 0⟩
  have h1 : headingFormatCheck (parse content) = [] :=
    headingFormatGo_headers (parse content) 0 hall
  have h2 : headingHierarchyCheck (parse content) = [] := by
    unfold headingHierarchyCheck getHeadingLevels
    rw [getHeadingLevelsGo_headers (parse content) 0 hall]
  have h3 : multipleTopLevelCheck (parse content) = [] :=
    multiTopGo_headers (parse content) 0 none hall
  have h4 : unterminatedCheck (parse content) = [] :=
    untermGo_headers (parse content) 0 [] hall
  have h5 : blockSpacingCheck (parse content) = [] :=
    blockSpacingGo_headers (parse content) (parse content) 0 [] hall
  simp only [lint_string, h1, h2, h3, h4, h5, List.nil_append]

/-- C1 counterexample: a two-line document on which the whitespace rule
emits at lines 1, 2, 2 and the image rule afterwards emits at line 1, so
the engine's report is not sorted by ascending line number. -/
theorem lintString_not_sorted_example :
    ((lint_string (fun _ => false) 0 "= image:http://x[]\n==x" none).findings.map
        (fun f => f.position.line)) = [1, 2, 2, 1] ∧
    ¬ SortedByLine (lint_string (fun _ => false) 0 "= image:http://x[]\n==x" none).findings :=
  ⟨rfl, by decide⟩

end AsciiDocLint
